import Mathlib

/-!
Shallow embedding of `totxt.py` (the Repository Flattener).

The program walks a directory tree with `os.walk`, prunes a hard-coded set of
directory names, classifies each remaining file (size ceiling, null-byte sniff
of the first 1024 bytes, gitignore-style glob match of the path relative to the
root), decodes kept files with a detected encoding using `errors='ignore'`, and
appends one section per kept file to a single output artifact, counting the
processed files.  Library calls (`os.walk`, `PurePath.match`, `chardet`,
the codec machinery, `tempfile.TemporaryDirectory`, `subprocess.run`) are
modelled by explicit Lean functions; per-file exceptions are modelled by
explicit outcome fields on the file records, mirroring the `try`/`except`
structure of the source.
-/

namespace Totxt

/-- Bytes of file content, as natural numbers below 256 (the bound is irrelevant
to every property proved here, so it is not enforced). -/
abbrev Byte := Nat

/-- Outcome of the per-file write block (`totxt.py` lines 100-108).  The
`try` body performs three `outfile.write` calls (header line, dash line,
content) and then increments `processed_files`; an exception raised by any
write is caught by the per-file `except`, so a file's section can be left
partial.  `read_source_file` and `relative_to` cannot raise there (the former
catches all exceptions internally), so the write calls are the only failure
points of the block. -/
inductive PerFileWrite where
  | ok
  | failHeader
  | failDash
  | failContent
deriving DecidableEq, Repr

/-- A regular file as the run observes it: its name (one path component), its
byte content, and the outcomes of the fallible system calls made on it during
the run (`probeError`: `os.path.getsize`/`open` raising inside `is_text_file`;
`readError`: `open`/decode raising inside `read_source_file`; `writeBehavior`:
the per-file write block). -/
structure File where
  name : String
  bytes : List Byte
  probeError : Bool
  readError : Bool
  writeBehavior : PerFileWrite

/-- A directory tree.  The lists record the order in which `os.walk` (via
`os.scandir`) enumerates the entries, so "filesystem traversal order" is the
list order. -/
inductive Dir where
  | mk (name : String) (files : List File) (subdirs : List Dir)

/-- Name of a directory. -/
def Dir.name : Dir → String
  | .mk n _ _ => n

/-- Files directly inside a directory. -/
def Dir.files : Dir → List File
  | .mk _ fs _ => fs

/-- Immediate subdirectories of a directory. -/
def Dir.subdirs : Dir → List Dir
  | .mk _ _ ds => ds

/-- A character encoding, abstractly: `step b rest` attempts to decode one
character from the byte stream `b :: rest`; `some (c, k)` means it decoded `c`
consuming `b` together with the first `k` bytes of `rest`; `none` means the
stream starts with an undecodable sequence at `b`. -/
structure Encoding where
  step : Byte → List Byte → Option (Char × Nat)

/-- Fuelled worker for `decodeIgnore`.  Every step consumes at least one byte,
so any fuel of at least the input length gives the fuel-free behaviour; the
fuel only makes the recursion structural. -/
def decodeIgnoreF (e : Encoding) : Nat → List Byte → List Char
  | 0, _ => []
  | _ + 1, [] => []
  | fuel + 1, b :: rest =>
    match e.step b rest with
    | some (c, k) => c :: decodeIgnoreF e fuel (rest.drop k)
    | none => decodeIgnoreF e fuel rest

/-- Decoding with `errors='ignore'` (as in `open(..., errors='ignore')` at
`totxt.py` line 75): undecodable bytes are dropped one at a time and decoding
continues; decodable prefixes produce their character. -/
def decodeIgnore (e : Encoding) (bytes : List Byte) : List Char :=
  decodeIgnoreF e bytes.length bytes

/-- A complete, error-free decode: `DecOk e bytes cs` holds when decoding
`bytes` under `e` consumes every byte without ever hitting an undecodable
sequence, producing exactly the characters `cs`.  This is the claim's notion
of "the byte sequence is decodable under the encoding". -/
inductive DecOk (e : Encoding) : List Byte → List Char → Prop
  | nil : DecOk e [] []
  | cons {b : Byte} {rest : List Byte} {c : Char} {k : Nat} {cs : List Char} :
      e.step b rest = some (c, k) →
      DecOk e (rest.drop k) cs →
      DecOk e (b :: rest) (c :: cs)

/-- With enough fuel, a fully decodable input decodes to exactly its text. -/
theorem decodeIgnoreF_of_decOk (e : Encoding) {bytes : List Byte}
    {cs : List Char} (h : DecOk e bytes cs) :
    ∀ fuel, bytes.length ≤ fuel → decodeIgnoreF e fuel bytes = cs := by
  induction h with
  | nil =>
    intro fuel _
    cases fuel <;> rfl
  | @cons b rest c k cs2 hstep htail ih =>
    intro fuel hlen
    cases fuel with
    | zero => simp at hlen
    | succ f =>
      rw [decodeIgnoreF, hstep]
      refine congrArg _ (ih f ?_)
      have hdrop : (rest.drop k).length ≤ rest.length := by
        rw [List.length_drop]
        omega
      simp only [List.length_cons] at hlen
      omega

/-- On fully decodable input, decoding with `errors='ignore'` drops nothing:
it returns exactly the decoded text. -/
theorem decodeIgnore_of_decOk (e : Encoding) {bytes : List Byte}
    {cs : List Char} (h : DecOk e bytes cs) : decodeIgnore e bytes = cs :=
  decodeIgnoreF_of_decOk e h bytes.length (Nat.le_refl _)

/-- Fuelled worker for `compMatch`: every recursive call shortens the pattern
or the text, so fuel of at least `pattern length + text length` gives the
fuel-free behaviour; the fuel only makes the recursion structural. -/
def compMatchF : Nat → List Char → List Char → Bool
  | 0, _, _ => false
  | _ + 1, [], [] => true
  | _ + 1, [], _ :: _ => false
  | fuel + 1, '*' :: ps, [] => compMatchF fuel ps []
  | fuel + 1, '*' :: ps, c :: ts =>
      compMatchF fuel ps (c :: ts) || compMatchF fuel ('*' :: ps) ts
  | fuel + 1, '?' :: ps, _ :: ts => compMatchF fuel ps ts
  | _ + 1, '?' :: _, [] => false
  | fuel + 1, p :: ps, c :: ts => (p == c) && compMatchF fuel ps ts
  | _ + 1, _ :: _, [] => false

/-- Glob match of one path component against one pattern component
(`fnmatch`-style, as used per component by Python's `PurePath.match`):
`*` matches any run of characters within the component, `?` matches exactly
one character, anything else matches itself.  (Character classes `[...]` are
not modelled; no property here depends on them.)  First argument is the
pattern, second the text. -/
def compMatch (p t : List Char) : Bool :=
  compMatchF (p.length + t.length + 1) p t

/-- Splitting a character list at every `/` (the accumulator holds the
current component reversed). -/
def splitSlashAux : List Char → List Char → List (List Char)
  | acc, [] => [acc.reverse]
  | acc, c :: cs =>
    if c = '/' then acc.reverse :: splitSlashAux [] cs
    else splitSlashAux (c :: acc) cs

/-- Components of a glob pattern, as `PurePath` parsing produces them: split
on `/`, dropping empty components and `.` components (so `./build` parses to
`build`, and `.` or `//` parse to nothing at all). -/
def patternParts (p : String) : List String :=
  ((splitSlashAux [] p.toList).map String.mk).filter
    (fun s => s != "" && s != ".")

/-- Root detection of `PurePath` parsing (POSIX flavour): a pattern beginning
with `/` is absolute.  `PurePath.match` compares the pattern's root against
the path's root; the paths this program matches are always `relative_to`
results, hence rootless, so an absolute pattern fails the root check and
never matches. -/
def patternIsAbs (pattern : String) : Bool :=
  decide (pattern.toList.head? = some '/')

/-- `PurePath.match` raises `ValueError("empty pattern")` when the pattern
parses to no components (`.`, `//`, ...).  At the call site (`totxt.py`
line 99, outside the per-file `try`) such an exception escapes to the outer
`except` of `convert_repository` and aborts the whole run; the run model in
this file covers runs whose loaded patterns never raise. -/
def matchRaises (pattern : String) : Bool :=
  decide (patternParts pattern = [])

/-- Python `PurePath.match` of a relative path against a pattern (used at
`totxt.py` line 49).  An absolute pattern (leading `/`) fails the root check
against a relative path; a relative pattern's components are matched against
the FINAL components of the path, i.e. matching is anchored at the right, not
at the root.  `rel` is the relative path as a list of components.  For a
pattern with no components the real call raises (see `matchRaises`) instead
of returning; the `false` this function yields there is never observed by a
run the model covers. -/
def pathMatch (rel : List String) (pattern : String) : Bool :=
  let pp := patternParts pattern
  decide (pp ≠ []) && !patternIsAbs pattern &&
    decide (pp.length ≤ rel.length) &&
    ((rel.drop (rel.length - pp.length)).zip pp).all
      (fun ct => compMatch ct.2.toList ct.1.toList)

/-- The hard-coded exclusion directory set (`totxt.py` line 34). -/
def exclude_dirs : List String :=
  [".git", "node_modules", ".venv", "venv", "__pycache__", "dist", "build"]

/-- Run options and modelled library behaviour: `max_file_size` is the size
ceiling in bytes (the CLI option arrives in KiB and is multiplied by 1024 in
`__init__`); `detect` models `chardet.detect` plus the `or 'utf-8'` fallback
of `detect_encoding`, as a total function from sniffed bytes to an encoding. -/
structure Ctx where
  max_file_size : Nat
  detect : List Byte → Encoding

/-- `is_ignored` (`totxt.py` lines 47-49): the path relative to the root is
matched against every loaded pattern with `PurePath.match`. -/
def is_ignored (patterns : List String) (rel : List String) : Bool :=
  patterns.any (pathMatch rel)

/-- `is_text_file` (`totxt.py` lines 51-61): reject when probing raises, when
the byte size exceeds the ceiling, or when the first 1024 bytes contain a null
byte; accept otherwise. -/
def is_text_file (ctx : Ctx) (f : File) : Bool :=
  if f.probeError then false
  else if f.bytes.length > ctx.max_file_size then false
  else if (f.bytes.take 1024).contains 0 then false
  else true

/-- `detect_encoding` (`totxt.py` lines 63-70): the detector sees only the
first 10000 bytes; detection failure and the `utf-8` fallback are folded into
the abstract `detect` function. -/
def detect_encoding (ctx : Ctx) (f : File) : Encoding :=
  ctx.detect (f.bytes.take 10000)

/-- The fallible body of `read_source_file`: opening and decoding the file,
which raises exactly when the run hits a read error on this file. -/
def rawRead (ctx : Ctx) (f : File) : Except String String :=
  if f.readError then Except.error "read error"
  else Except.ok (String.mk (decodeIgnore (detect_encoding ctx f) f.bytes))

/-- `read_source_file` (`totxt.py` lines 72-79): all exceptions are caught and
turned into the empty string, so the function is total and never propagates an
error to the caller. -/
def read_source_file (ctx : Ctx) (f : File) : String :=
  match rawRead ctx f with
  | Except.ok s => s
  | Except.error _ => ""

/-- Python's `str.strip()`: whitespace removed from both ends. -/
def pyStrip (s : String) : String :=
  String.mk
    (((s.toList.dropWhile Char.isWhitespace).reverse.dropWhile
        Char.isWhitespace).reverse)

/-- One non-empty, non-comment, stripped line of a `.gitignore` file becomes
one pattern (`totxt.py` lines 42-45); `stripped.startswith('#')` is a check
of the first character. -/
def parseGitignore (lines : List String) : List String :=
  lines.filterMap (fun l =>
    let s := pyStrip l
    if s.toList ≠ [] ∧ s.toList.head? ≠ some '#' then some s else none)

/-- Adding one pattern to the accumulated pattern set (`set.add`): a no-op
when the pattern is already present. -/
def insertPattern (pats : List String) (p : String) : List String :=
  if p ∈ pats then pats else pats ++ [p]

/-- `load_gitignore` (`totxt.py` lines 38-45): every parsed line is added to
the converter's accumulated pattern set. -/
def load_gitignore (pats : List String) (lines : List String) : List String :=
  (parseGitignore lines).foldl insertPattern pats

/-- One `outfile.write` call of `convert_repository`, tagged by the source
line that performs it: the repository header line (91), the `=` separator
(92), a file section header (102), the dash line (103), or a file's content
plus the trailing blank-line separator (105). -/
inductive Ev where
  | repoHeader (root : String)
  | eqLine
  | fileHeader (rel : List String)
  | dashLine
  | fileContent (s : String)
deriving DecidableEq, Repr

/-- Rendering a relative path the way `str(PurePath)` does: components joined
with `/`. -/
def relString (rel : List String) : String :=
  String.intercalate "/" rel

/-- The exact string each write call appends to the output artifact; the
separator lines are 50 `=` signs and 50 dashes, as built by the source's
string repetition. -/
def Ev.render : Ev → String
  | .repoHeader root => "# Repository: " ++ root ++ "\n"
  | .eqLine => String.mk (List.replicate 50 '=') ++ "\n\n"
  | .fileHeader rel => "### SOURCE FILE: " ++ relString rel ++ "\n"
  | .dashLine => String.mk (List.replicate 50 '-') ++ "\n"
  | .fileContent s => s ++ "\n\n"

/-- Concatenation of a write trace into the final artifact text. -/
def renderTrace (evs : List Ev) : String :=
  String.join (evs.map Ev.render)

/-- The filter applied to every file visited by the walk (`totxt.py` line 99):
`is_text_file` and not `is_ignored`, with `rel` the path relative to the
root. -/
def includeFile (ctx : Ctx) (pats : List String) (rel : List String)
    (f : File) : Bool :=
  is_text_file ctx f && ! is_ignored pats rel

/-- Write events produced for one visited file (`totxt.py` lines 99-108): an
excluded file produces nothing; an included file produces header, dash line
and content, truncated at the first failing write (the per-file `except` then
swallows the exception and the loop continues). -/
def fileEvs (ctx : Ctx) (pats : List String) (rel : List String)
    (f : File) : List Ev :=
  if includeFile ctx pats rel f then
    match f.writeBehavior with
    | .ok => [Ev.fileHeader rel, Ev.dashLine,
              Ev.fileContent (read_source_file ctx f)]
    | .failHeader => []
    | .failDash => [Ev.fileHeader rel]
    | .failContent => [Ev.fileHeader rel, Ev.dashLine]
  else []

/-- Contribution of one visited file to `processed_files` (`totxt.py`
line 106): the counter is incremented only after all three writes of the
section succeeded. -/
def fileCount (ctx : Ctx) (pats : List String) (rel : List String)
    (f : File) : Nat :=
  if includeFile ctx pats rel f ∧ f.writeBehavior = PerFileWrite.ok then 1
  else 0

mutual

/-- Write events of the walk (`totxt.py` lines 95-108): `os.walk` is top-down,
so a directory's own files are processed first, in list order, then each
subdirectory is walked recursively, in list order; subdirectories whose name
is in `exclude_dirs` are pruned (the `dirs[:]` filter at line 96) and never
descended into.  `pre` is the path of the current directory relative to the
root (empty for the root itself). -/
def walkEvs (ctx : Ctx) (pats : List String) (pre : List String) :
    Dir → List Ev
  | .mk _ files subdirs =>
    (files.map (fun f => fileEvs ctx pats (pre ++ [f.name]) f)).flatten ++
    walkEvsList ctx pats pre subdirs

/-- Events of walking a list of sibling subdirectories in order, pruning the
excluded ones. -/
def walkEvsList (ctx : Ctx) (pats : List String) (pre : List String) :
    List Dir → List Ev
  | [] => []
  | s :: ss =>
    (if s.name ∈ exclude_dirs then []
     else walkEvs ctx pats (pre ++ [s.name]) s) ++
    walkEvsList ctx pats pre ss

end

mutual

/-- Final value of `processed_files` for the walk, accumulated in the same
order as `walkEvs`. -/
def walkCount (ctx : Ctx) (pats : List String) (pre : List String) :
    Dir → Nat
  | .mk _ files subdirs =>
    (files.map (fun f => fileCount ctx pats (pre ++ [f.name]) f)).sum +
    walkCountList ctx pats pre subdirs

/-- Count of processed files over a list of sibling subdirectories. -/
def walkCountList (ctx : Ctx) (pats : List String) (pre : List String) :
    List Dir → Nat
  | [] => 0
  | s :: ss =>
    (if s.name ∈ exclude_dirs then 0
     else walkCount ctx pats (pre ++ [s.name]) s) +
    walkCountList ctx pats pre ss

end

/-- The repository as `convert_repository` observes it: the root directory
tree and, when a root-level `.gitignore` regular file exists, that file's text
lines (`load_gitignore` reads it in text mode; `none` models an absent file,
in which case no patterns are loaded and no error occurs). -/
structure Repo where
  root : Dir
  gitignore : Option (List String)

/-- The pattern set in effect during a run: the converter's accumulated
`gitignore_patterns` field after `load_gitignore` ran on the root. -/
def runPatterns (pats : List String) (repo : Repo) : List String :=
  match repo.gitignore with
  | none => pats
  | some lines => load_gitignore pats lines

/-- Observable outcome of one `convert_repository` call: the converter's
pattern field afterwards (instance state persists across calls), the artifact
text when the output file could be opened, the success-summary lines printed
to the console (count of processed files and output path), and whether the
outer `except` logged an error. -/
structure RunOut where
  patterns : List String
  artifact : Option String
  summary : List String
  errorLogged : Bool
deriving DecidableEq

/-- The full write trace of a successful run: repository header, `=`
separator, then the walk's events. -/
def runTrace (ctx : Ctx) (pats : List String) (repoStr : String)
    (root : Dir) : List Ev :=
  Ev.repoHeader repoStr :: Ev.eqLine :: walkEvs ctx pats [] root

/-- `convert_repository` (`totxt.py` lines 81-115): load the ignore patterns,
then `try` to open the output file and write the artifact.  `openFail` models
`open(output_path, 'w')` raising; the outer `except` then logs the error and
no summary is printed.  On success the three summary lines are printed. -/
def convert_repository (ctx : Ctx) (pats : List String) (repo : Repo)
    (repoStr : String) (outStr : String) (openFail : Bool) : RunOut :=
  let pats2 := runPatterns pats repo
  if openFail then
    { patterns := pats2
      artifact := none
      summary := []
      errorLogged := true }
  else
    { patterns := pats2
      artifact := some (renderTrace (runTrace ctx pats2 repoStr repo.root))
      summary := ["Conversion successful!",
                  "Processed Files: " ++
                    toString (walkCount ctx pats2 [] repo.root),
                  "Output File: " ++ outStr]
      errorLogged := false }

/-- Failure of the external clone invocation (`subprocess.run(..., check=True)`
raising `CalledProcessError`). -/
inductive CloneErr where
  | cloneFailed
deriving DecidableEq

/-- Python's `with tempfile.TemporaryDirectory()` block: the body runs with
the directory alive; `__exit__` removes the directory on every exit path,
whether the body returned normally or raised.  The second component of the
result records whether the temporary directory still exists after the block:
it never does. -/
def withTempDir {α : Type} (body : Unit → Except CloneErr α) :
    Except CloneErr α × Bool :=
  (body (), false)

/-- `clone_and_convert` (`totxt.py` lines 117-121): inside a temporary
directory, run `git clone` (modelled by `cloneResult`: `some repo` when the
clone populates the directory with `repo`, `none` when it fails, in which case
`check=True` raises and the exception propagates with no retry, before any
traversal), then convert the cloned tree as the root. -/
def clone_and_convert (ctx : Ctx) (pats : List String)
    (cloneResult : Option Repo) (outStr : String) (openFail : Bool) :
    Except CloneErr RunOut × Bool :=
  withTempDir (fun _ =>
    match cloneResult with
    | none => Except.error CloneErr.cloneFailed
    | some repo =>
        Except.ok (convert_repository ctx pats repo "tmpdir" outStr openFail))

/-- The relative paths of the section headers appearing in a write trace, in
order. -/
def headerPaths (evs : List Ev) : List (List String) :=
  evs.filterMap (fun e =>
    match e with
    | Ev.fileHeader rel => some rel
    | _ => none)

/-- `FileAt d rel f`: the tree `d` contains the regular file `f` at the path
`rel` relative to `d`. -/
inductive FileAt : Dir → List String → File → Prop
  | here {n : String} {files : List File} {ds : List Dir} {f : File} :
      f ∈ files → FileAt (Dir.mk n files ds) [f.name] f
  | there {n : String} {files : List File} {ds : List Dir} {s : Dir}
      {rest : List String} {f : File} :
      s ∈ ds → FileAt s rest f → FileAt (Dir.mk n files ds) (s.name :: rest) f

mutual

/-- Every per-file write block in the tree succeeds (no disk error during the
write phase). -/
def allWritesOk : Dir → Bool
  | .mk _ files subdirs =>
    files.all (fun f => f.writeBehavior == PerFileWrite.ok) &&
    allWritesOkList subdirs

/-- `allWritesOk` over a list of sibling subdirectories. -/
def allWritesOkList : List Dir → Bool
  | [] => true
  | s :: ss => allWritesOk s && allWritesOkList ss

end

mutual

/-- A well-formed filesystem tree: within each directory, file names are
pairwise distinct and subdirectory names are pairwise distinct (as a real
filesystem guarantees). -/
def wellFormed : Dir → Bool
  | .mk _ files subdirs =>
    decide ((files.map File.name).Nodup) &&
    decide ((subdirs.map Dir.name).Nodup) &&
    wellFormedList subdirs

/-- `wellFormed` over a list of sibling subdirectories. -/
def wellFormedList : List Dir → Bool
  | [] => true
  | s :: ss => wellFormed s && wellFormedList ss

end

mutual

/-- The tree with every excluded directory (and hence all its descendants)
removed, at every depth. -/
def pruneDir : Dir → Dir
  | .mk n files subdirs => Dir.mk n files (pruneDirList subdirs)

/-- `pruneDir` over a list of sibling subdirectories: excluded ones are
dropped, the rest are pruned recursively. -/
def pruneDirList : List Dir → List Dir
  | [] => []
  | s :: ss =>
    if s.name ∈ exclude_dirs then pruneDirList ss
    else pruneDir s :: pruneDirList ss

end

mutual

/-- All files the walk visits, as (path relative to the current directory,
file) pairs in traversal order: a directory's own files first, then the
non-pruned subdirectories recursively. -/
def prunedTails : Dir → List (List String × File)
  | .mk _ files subdirs =>
    files.map (fun f => ([f.name], f)) ++ prunedTailsList subdirs

/-- `prunedTails` over a list of sibling subdirectories, each contributed
path prefixed with its subdirectory's name. -/
def prunedTailsList : List Dir → List (List String × File)
  | [] => []
  | s :: ss =>
    (if s.name ∈ exclude_dirs then []
     else (prunedTails s).map (fun tf => (s.name :: tf.1, tf.2))) ++
    prunedTailsList ss

end

/-- Selector underlying `goodPaths`: keep a visited (tail, file) pair exactly
when the file passes the classification filter at its full relative path. -/
def selTail (ctx : Ctx) (pats : List String) (pre : List String)
    (tf : List String × File) : Option (List String) :=
  if includeFile ctx pats (pre ++ tf.1) tf.2 then some (pre ++ tf.1) else none

/-- The relative paths, in traversal order, of the files the walk visits that
pass the classification filter (text file under the ceiling, not ignored):
the files the claims say must appear in the output. -/
def goodPaths (ctx : Ctx) (pats : List String) (pre : List String)
    (d : Dir) : List (List String) :=
  (prunedTails d).filterMap (selTail ctx pats pre)

/-! ### Basic lemmas about header extraction and per-file emission -/

theorem headerPaths_append (a b : List Ev) :
    headerPaths (a ++ b) = headerPaths a ++ headerPaths b :=
  List.filterMap_append a b _

/-- With a successful write block, a visited file emits exactly one header
when it passes the filter and none otherwise. -/
theorem headerPaths_fileEvs (ctx : Ctx) (pats : List String)
    (rel : List String) (f : File) (hok : f.writeBehavior = PerFileWrite.ok) :
    headerPaths (fileEvs ctx pats rel f) =
      if includeFile ctx pats rel f then [rel] else [] := by
  by_cases h : includeFile ctx pats rel f <;>
    simp [fileEvs, headerPaths, h, hok]

/-- Whatever the write outcome, any header a visited file emits carries that
file's relative path, and only filter-passing files emit headers. -/
theorem mem_headerPaths_fileEvs {ctx : Ctx} {pats : List String}
    {rel r : List String} {f : File}
    (h : r ∈ headerPaths (fileEvs ctx pats rel f)) :
    r = rel ∧ includeFile ctx pats rel f = true := by
  by_cases hi : includeFile ctx pats rel f
  · refine ⟨?_, hi⟩
    cases hw : f.writeBehavior <;>
      simp [fileEvs, headerPaths, hi, hw] at h <;> simp [h]
  · simp [fileEvs, headerPaths, hi] at h

/-- With a successful write block, a visited file is counted exactly when it
passes the filter. -/
theorem fileCount_eq (ctx : Ctx) (pats : List String) (rel : List String)
    (f : File) (hok : f.writeBehavior = PerFileWrite.ok) :
    fileCount ctx pats rel f =
      if includeFile ctx pats rel f then 1 else 0 := by
  by_cases h : includeFile ctx pats rel f <;> simp [fileCount, h, hok]

/-- Pushing the selector through a subdirectory's name prefix. -/
theorem selTail_cons (ctx : Ctx) (pats : List String) (pre : List String)
    (nm : String) (t : List String) (f : File) :
    selTail ctx pats pre (nm :: t, f) = selTail ctx pats (pre ++ [nm]) (t, f) := by
  unfold selTail
  rw [List.append_cons]

/-- The recurrence satisfied by `goodPaths` on a directory node. -/
theorem goodPaths_mk (ctx : Ctx) (pats : List String) (pre : List String)
    (n : String) (files : List File) (ds : List Dir) :
    goodPaths ctx pats pre (Dir.mk n files ds) =
      files.filterMap (fun f => selTail ctx pats pre ([f.name], f)) ++
      (prunedTailsList ds).filterMap (selTail ctx pats pre) := by
  unfold goodPaths
  rw [prunedTails, List.filterMap_append, List.filterMap_map]
  rfl

/-- Header paths of the own-files part of a directory's walk, when every
write block succeeds. -/
theorem headerPaths_filesPart (ctx : Ctx) (pats : List String)
    (pre : List String) :
    ∀ (files : List File),
      files.all (fun f => f.writeBehavior == PerFileWrite.ok) = true →
      headerPaths
        ((files.map (fun f => fileEvs ctx pats (pre ++ [f.name]) f)).flatten) =
      files.filterMap (fun f => selTail ctx pats pre ([f.name], f)) := by
  intro files
  induction files with
  | nil => intro _; rfl
  | cons f fs ih =>
    intro hall
    simp only [List.all_cons, Bool.and_eq_true, beq_iff_eq] at hall
    simp only [List.map_cons, List.flatten_cons, headerPaths_append,
      List.filterMap_cons]
    rw [headerPaths_fileEvs ctx pats _ f hall.1, ih hall.2]
    by_cases h : includeFile ctx pats (pre ++ [f.name]) f <;>
      simp [selTail, h]

mutual

/-- Central traversal lemma: when every write block succeeds, the section
headers written by the walk are exactly the filter-passing files, in
traversal order. -/
theorem headerPaths_walkEvs (ctx : Ctx) (pats : List String) :
    ∀ (pre : List String) (d : Dir), allWritesOk d = true →
      headerPaths (walkEvs ctx pats pre d) = goodPaths ctx pats pre d
  | pre, .mk n files ds => fun hok => by
    rw [allWritesOk] at hok
    simp only [Bool.and_eq_true] at hok
    rw [walkEvs, headerPaths_append, goodPaths_mk,
      headerPaths_filesPart ctx pats pre files hok.1,
      headerPaths_walkEvsList ctx pats pre ds hok.2]

/-- `headerPaths_walkEvs` for a list of sibling subdirectories. -/
theorem headerPaths_walkEvsList (ctx : Ctx) (pats : List String) :
    ∀ (pre : List String) (l : List Dir), allWritesOkList l = true →
      headerPaths (walkEvsList ctx pats pre l) =
        (prunedTailsList l).filterMap (selTail ctx pats pre)
  | _, [] => fun _ => rfl
  | pre, s :: ss => fun hok => by
    rw [allWritesOkList] at hok
    simp only [Bool.and_eq_true] at hok
    rw [walkEvsList, headerPaths_append, prunedTailsList,
      List.filterMap_append,
      headerPaths_walkEvsList ctx pats pre ss hok.2]
    by_cases he : s.name ∈ exclude_dirs
    · simp [he, headerPaths]
    · simp only [he, if_false]
      rw [headerPaths_walkEvs ctx pats (pre ++ [s.name]) s hok.1,
        List.filterMap_map]
      unfold goodPaths
      refine congrArg (· ++ _) ?_
      refine List.filterMap_congr ?_
      intro tf _
      exact (selTail_cons ctx pats pre s.name tf.1 tf.2).symm

end

/-- Processed-file count of the own-files part of a directory, when every
write block succeeds. -/
theorem filesCount_part (ctx : Ctx) (pats : List String) (pre : List String) :
    ∀ (files : List File),
      files.all (fun f => f.writeBehavior == PerFileWrite.ok) = true →
      (files.map (fun f => fileCount ctx pats (pre ++ [f.name]) f)).sum =
        (files.filterMap (fun f => selTail ctx pats pre ([f.name], f))).length := by
  intro files
  induction files with
  | nil => intro _; rfl
  | cons f fs ih =>
    intro hall
    simp only [List.all_cons, Bool.and_eq_true, beq_iff_eq] at hall
    simp only [List.map_cons, List.sum_cons, List.filterMap_cons]
    rw [fileCount_eq ctx pats _ f hall.1, ih hall.2]
    by_cases h : includeFile ctx pats (pre ++ [f.name]) f
    · simp [selTail, h]
      omega
    · simp [selTail, h]

mutual

/-- When every write block succeeds, the final `processed_files` equals the
number of section headers the walk wrote. -/
theorem walkCount_eq_headers (ctx : Ctx) (pats : List String) :
    ∀ (pre : List String) (d : Dir), allWritesOk d = true →
      walkCount ctx pats pre d = (headerPaths (walkEvs ctx pats pre d)).length
  | pre, .mk n files ds => fun hok => by
    rw [allWritesOk] at hok
    simp only [Bool.and_eq_true] at hok
    rw [walkCount, walkEvs, headerPaths_append, List.length_append,
      headerPaths_filesPart ctx pats pre files hok.1,
      filesCount_part ctx pats pre files hok.1,
      walkCountList_eq_headers ctx pats pre ds hok.2]

/-- `walkCount_eq_headers` for a list of sibling subdirectories. -/
theorem walkCountList_eq_headers (ctx : Ctx) (pats : List String) :
    ∀ (pre : List String) (l : List Dir), allWritesOkList l = true →
      walkCountList ctx pats pre l =
        (headerPaths (walkEvsList ctx pats pre l)).length
  | _, [] => fun _ => rfl
  | pre, s :: ss => fun hok => by
    rw [allWritesOkList] at hok
    simp only [Bool.and_eq_true] at hok
    rw [walkCountList, walkEvsList, headerPaths_append, List.length_append,
      walkCountList_eq_headers ctx pats pre ss hok.2]
    by_cases he : s.name ∈ exclude_dirs
    · simp [he, headerPaths]
    · simp only [he, if_false]
      rw [walkCount_eq_headers ctx pats (pre ++ [s.name]) s hok.1]

end

mutual

/-- Soundness of the walk: every section header it writes names a file that
exists in the tree and passed the classification filter (text file, under the
ceiling, not ignored) at its relative path. -/
theorem mem_headerPaths_walkEvs (ctx : Ctx) (pats : List String) :
    ∀ (pre : List String) (d : Dir) (r : List String),
      r ∈ headerPaths (walkEvs ctx pats pre d) →
      ∃ tail f, r = pre ++ tail ∧ FileAt d tail f ∧
        includeFile ctx pats r f = true
  | pre, .mk n files ds, r => fun hr => by
    rw [walkEvs, headerPaths_append] at hr
    rcases List.mem_append.mp hr with hl | hl
    · simp only [headerPaths, List.filterMap_flatten, List.mem_flatten,
        List.map_map, List.mem_map, Function.comp] at hl
      obtain ⟨_, ⟨f, hf, rfl⟩, hmem⟩ := hl
      obtain ⟨rfl, hinc⟩ := mem_headerPaths_fileEvs hmem
      exact ⟨[f.name], f, rfl, FileAt.here hf, hinc⟩
    · obtain ⟨s, tail, f, hs, hr2, hat, hinc⟩ :=
        mem_headerPaths_walkEvsList ctx pats pre ds r hl
      exact ⟨s.name :: tail, f, hr2, FileAt.there hs hat, hinc⟩

/-- `mem_headerPaths_walkEvs` for a list of sibling subdirectories. -/
theorem mem_headerPaths_walkEvsList (ctx : Ctx) (pats : List String) :
    ∀ (pre : List String) (l : List Dir) (r : List String),
      r ∈ headerPaths (walkEvsList ctx pats pre l) →
      ∃ s tail f, s ∈ l ∧ r = pre ++ (s.name :: tail) ∧ FileAt s tail f ∧
        includeFile ctx pats r f = true
  | pre, [], r => fun hr => by simp [walkEvsList, headerPaths] at hr
  | pre, s :: ss, r => fun hr => by
    rw [walkEvsList, headerPaths_append] at hr
    rcases List.mem_append.mp hr with hl | hl
    · by_cases he : s.name ∈ exclude_dirs
      · simp [he, headerPaths] at hl
      · simp only [he, if_false] at hl
        obtain ⟨tail, f, hr2, hat, hinc⟩ :=
          mem_headerPaths_walkEvs ctx pats (pre ++ [s.name]) s r hl
        refine ⟨s, tail, f, List.mem_cons_self s ss, ?_, hat, hinc⟩
        rw [hr2]
        simp
    · obtain ⟨s2, tail, f, hs2, hr2, hat, hinc⟩ :=
        mem_headerPaths_walkEvsList ctx pats pre ss r hl
      exact ⟨s2, tail, f, List.mem_cons_of_mem s hs2, hr2, hat, hinc⟩

end

mutual

/-- No directory component of any written header path is an excluded
directory name, except possibly components already present in the starting
prefix. -/
theorem walkEvs_comps (ctx : Ctx) (pats : List String) :
    ∀ (pre : List String) (d : Dir) (r : List String),
      r ∈ headerPaths (walkEvs ctx pats pre d) →
      ∀ c ∈ r.dropLast, c ∈ pre ∨ c ∉ exclude_dirs
  | pre, .mk n files ds, r => fun hr => by
    rw [walkEvs, headerPaths_append] at hr
    rcases List.mem_append.mp hr with hl | hl
    · simp only [headerPaths, List.filterMap_flatten, List.mem_flatten,
        List.map_map, List.mem_map, Function.comp] at hl
      obtain ⟨_, ⟨f, hf, rfl⟩, hmem⟩ := hl
      obtain ⟨rfl, _⟩ := mem_headerPaths_fileEvs hmem
      intro c hc
      rw [List.dropLast_concat] at hc
      exact Or.inl hc
    · exact walkEvsList_comps ctx pats pre ds r hl

/-- `walkEvs_comps` for a list of sibling subdirectories. -/
theorem walkEvsList_comps (ctx : Ctx) (pats : List String) :
    ∀ (pre : List String) (l : List Dir) (r : List String),
      r ∈ headerPaths (walkEvsList ctx pats pre l) →
      ∀ c ∈ r.dropLast, c ∈ pre ∨ c ∉ exclude_dirs
  | pre, [], r => fun hr => by simp [walkEvsList, headerPaths] at hr
  | pre, s :: ss, r => fun hr => by
    rw [walkEvsList, headerPaths_append] at hr
    rcases List.mem_append.mp hr with hl | hl
    · by_cases he : s.name ∈ exclude_dirs
      · simp [he, headerPaths] at hl
      · simp only [he, if_false] at hl
        intro c hc
        rcases walkEvs_comps ctx pats (pre ++ [s.name]) s r hl c hc with
          h2 | h2
        · rcases List.mem_append.mp h2 with h3 | h3
          · exact Or.inl h3
          · rw [List.mem_singleton] at h3
            subst h3
            exact Or.inr he
        · exact Or.inr h2
    · exact walkEvsList_comps ctx pats pre ss r hl

end

/-- Pruning never changes a directory's name. -/
theorem pruneDir_name (d : Dir) : (pruneDir d).name = d.name := by
  cases d
  rfl

mutual

/-- The walk of a tree equals the walk of the tree with every excluded
directory removed wholesale: pruned directories are never descended into and
contribute nothing. -/
theorem walkEvs_pruneDir (ctx : Ctx) (pats : List String) :
    ∀ (pre : List String) (d : Dir),
      walkEvs ctx pats pre (pruneDir d) = walkEvs ctx pats pre d
  | pre, .mk n files ds => by
    rw [pruneDir, walkEvs, walkEvs,
      walkEvsList_pruneDirList ctx pats pre ds]

/-- `walkEvs_pruneDir` for a list of sibling subdirectories. -/
theorem walkEvsList_pruneDirList (ctx : Ctx) (pats : List String) :
    ∀ (pre : List String) (l : List Dir),
      walkEvsList ctx pats pre (pruneDirList l) = walkEvsList ctx pats pre l
  | _, [] => rfl
  | pre, s :: ss => by
    rw [pruneDirList]
    by_cases he : s.name ∈ exclude_dirs
    · rw [if_pos he, walkEvsList_pruneDirList ctx pats pre ss, walkEvsList,
        if_pos he, List.nil_append]
    · rw [if_neg he, walkEvsList, walkEvsList,
        walkEvsList_pruneDirList ctx pats pre ss, pruneDir_name,
        if_neg he, if_neg he, walkEvs_pruneDir ctx pats (pre ++ [s.name]) s]

end

mutual

/-- Every path the walk visits is non-empty (it ends in a file name). -/
theorem prunedTails_ne_nil :
    ∀ (d : Dir) (t : List String),
      t ∈ (prunedTails d).map Prod.fst → t ≠ []
  | .mk n files ds, t => fun ht => by
    rw [prunedTails, List.map_append] at ht
    rcases List.mem_append.mp ht with hl | hl
    · simp only [List.map_map, List.mem_map, Function.comp] at hl
      obtain ⟨f, _, rfl⟩ := hl
      simp
    · obtain ⟨s, _, t2, _, rfl⟩ := prunedTailsList_shape ds t hl
      simp

/-- Every path contributed by a subdirectory list starts with the name of one
of its non-excluded members, followed by a non-empty tail. -/
theorem prunedTailsList_shape :
    ∀ (l : List Dir) (t : List String),
      t ∈ (prunedTailsList l).map Prod.fst →
      ∃ s, s ∈ l ∧ ∃ t2, t2 ≠ [] ∧ t = s.name :: t2
  | [], t => fun ht => by simp [prunedTailsList] at ht
  | s :: ss, t => fun ht => by
    rw [prunedTailsList, List.map_append] at ht
    rcases List.mem_append.mp ht with hl | hl
    · by_cases he : s.name ∈ exclude_dirs
      · simp [he] at hl
      · simp only [he, if_false, List.map_map, List.mem_map,
          Function.comp] at hl
        obtain ⟨tf, htf, rfl⟩ := hl
        refine ⟨s, List.mem_cons_self s ss, tf.1, ?_, rfl⟩
        exact prunedTails_ne_nil s tf.1 (List.mem_map_of_mem Prod.fst htf)
    · obtain ⟨s2, hs2, t2, ht2, rfl⟩ := prunedTailsList_shape ss t hl
      exact ⟨s2, List.mem_cons_of_mem s hs2, t2, ht2, rfl⟩

end

mutual

/-- In a well-formed tree, the walk visits pairwise-distinct relative
paths. -/
theorem prunedTails_nodup :
    ∀ (d : Dir), wellFormed d = true → ((prunedTails d).map Prod.fst).Nodup
  | .mk n files ds => fun hwf => by
    rw [wellFormed] at hwf
    simp only [Bool.and_eq_true, decide_eq_true_eq] at hwf
    rw [prunedTails, List.map_append]
    refine List.Nodup.append ?_ (prunedTailsList_nodup ds hwf.1.2 hwf.2) ?_
    · have h1 : (files.map (fun f => ([f.name], f))).map Prod.fst =
          (files.map File.name).map (fun nm => [nm]) := by
        simp [List.map_map, Function.comp]
      rw [h1]
      refine List.Nodup.map ?_ hwf.1.1
      intro a b hab
      injection hab
    · rw [List.disjoint_left]
      intro t ht hcontra
      simp only [List.map_map, List.mem_map, Function.comp] at ht
      obtain ⟨f, _, rfl⟩ := ht
      obtain ⟨s, _, t2, ht2, heq⟩ := prunedTailsList_shape ds [f.name] hcontra
      injection heq with _ h2
      exact ht2 h2.symm

/-- `prunedTails_nodup` for a list of sibling subdirectories with distinct
names. -/
theorem prunedTailsList_nodup :
    ∀ (l : List Dir), (l.map Dir.name).Nodup → wellFormedList l = true →
      ((prunedTailsList l).map Prod.fst).Nodup
  | [], _, _ => List.nodup_nil
  | s :: ss, hnames, hwf => by
    rw [wellFormedList] at hwf
    simp only [Bool.and_eq_true] at hwf
    rw [List.map_cons, List.nodup_cons] at hnames
    rw [prunedTailsList, List.map_append]
    refine List.Nodup.append ?_ (prunedTailsList_nodup ss hnames.2 hwf.2) ?_
    · by_cases he : s.name ∈ exclude_dirs
      · simp [he]
      · simp only [he, if_false]
        have h1 : ((prunedTails s).map
              (fun tf => (s.name :: tf.1, tf.2))).map Prod.fst =
            ((prunedTails s).map Prod.fst).map (fun t => s.name :: t) := by
          simp [List.map_map, Function.comp]
        rw [h1]
        refine List.Nodup.map ?_ (prunedTails_nodup s hwf.1)
        intro a b hab
        injection hab
    · rw [List.disjoint_left]
      intro t ht hcontra
      by_cases he : s.name ∈ exclude_dirs
      · simp [he] at ht
      · simp only [he, if_false, List.map_map, List.mem_map,
          Function.comp] at ht
        obtain ⟨tf, _, rfl⟩ := ht
        obtain ⟨s2, hs2, t2, _, heq⟩ :=
          prunedTailsList_shape ss (s.name :: tf.1) hcontra
        injection heq with h1 _
        exact hnames.1 (h1 ▸ List.mem_map_of_mem Dir.name hs2)

end

/-- The selector acts as a filter followed by prefixing with `pre`. -/
theorem filterMap_selTail (ctx : Ctx) (pats : List String)
    (pre : List String) :
    ∀ (l : List (List String × File)),
      l.filterMap (selTail ctx pats pre) =
        (l.filter (fun tf => includeFile ctx pats (pre ++ tf.1) tf.2)).map
          (fun tf => pre ++ tf.1) := by
  intro l
  induction l with
  | nil => rfl
  | cons a l ih =>
    by_cases h : includeFile ctx pats (pre ++ a.1) a.2 <;>
      simp [List.filterMap_cons, List.filter_cons, selTail, h, ih]

/-- In a well-formed tree, the good paths are pairwise distinct: no relative
path passes the filter twice. -/
theorem goodPaths_nodup (ctx : Ctx) (pats : List String) (pre : List String)
    (d : Dir) (hwf : wellFormed d = true) :
    (goodPaths ctx pats pre d).Nodup := by
  unfold goodPaths
  rw [filterMap_selTail ctx pats pre (prunedTails d)]
  have h2 : ((prunedTails d).filter
        (fun tf => includeFile ctx pats (pre ++ tf.1) tf.2)).map
        (fun tf => pre ++ tf.1) =
      (((prunedTails d).filter
        (fun tf => includeFile ctx pats (pre ++ tf.1) tf.2)).map
        Prod.fst).map (fun t => pre ++ t) := by
    simp [List.map_map, Function.comp]
  rw [h2]
  refine List.Nodup.map (fun a b hab => List.append_cancel_left hab) ?_
  refine List.Nodup.sublist (List.Sublist.map Prod.fst (List.filter_sublist _))
    (prunedTails_nodup d hwf)

/-! ### Glob semantics: `PurePath.match` versus full-relative-path matching -/

/-- Modelled from the spec's words (claim C5): "a glob match of the full
relative path against a loaded pattern" — every component of the relative
path is matched against the pattern's components, anchored at both ends, so
the pattern must account for the whole relative path. -/
def fullGlobMatch (rel : List String) (pattern : String) : Bool :=
  let pp := patternParts pattern
  decide (pp ≠ []) && decide (pp.length = rel.length) &&
    ((rel.zip pp).all (fun ct => compMatch ct.2.toList ct.1.toList))

/-- What `PurePath.match` decides on a relative path, when it returns at all:
the pattern has components, is relative, and its components glob-match some
SUFFIX of the relative path's components (right-anchored matching). -/
theorem pathMatch_iff (rel : List String) (p : String) :
    pathMatch rel p = true ↔
      patternParts p ≠ [] ∧ patternIsAbs p = false ∧
      ∃ t : List String, List.IsSuffix t rel ∧
        t.length = (patternParts p).length ∧
        ((t.zip (patternParts p)).all
          (fun ct => compMatch ct.2.toList ct.1.toList)) = true := by
  constructor
  · intro h
    simp only [pathMatch, Bool.and_eq_true, Bool.not_eq_true',
      decide_eq_true_eq] at h
    obtain ⟨⟨⟨hne, habs⟩, hle⟩, hall⟩ := h
    refine ⟨hne, habs, rel.drop (rel.length - (patternParts p).length),
      List.drop_suffix _ _, ?_, hall⟩
    rw [List.length_drop]
    omega
  · intro ⟨hne, habs, t, hsuf, hlen, hall⟩
    obtain ⟨s, hs⟩ := hsuf
    have hslen : s.length + t.length = rel.length := by
      rw [← hs, List.length_append]
    have ht : rel.drop (rel.length - (patternParts p).length) = t := by
      have h1 : rel.length - (patternParts p).length = s.length := by omega
      rw [h1, ← hs, List.drop_left]
    simp only [pathMatch, Bool.and_eq_true, Bool.not_eq_true',
      decide_eq_true_eq]
    refine ⟨⟨⟨hne, habs⟩, by omega⟩, ?_⟩
    rw [ht]
    exact hall

/-! ### Pattern-set loading: membership and idempotence -/

theorem mem_insertPattern_self (pats : List String) (p : String) :
    p ∈ insertPattern pats p := by
  unfold insertPattern
  by_cases h : p ∈ pats <;> simp [h]

theorem mem_insertPattern_of_mem {pats : List String} {q : String}
    (p : String) (h : q ∈ pats) : q ∈ insertPattern pats p := by
  unfold insertPattern
  by_cases h2 : p ∈ pats <;> simp [h2, h]

theorem mem_foldl_insert {q : String} :
    ∀ (L : List String) (S : List String), q ∈ S →
      q ∈ L.foldl insertPattern S
  | [], _, h => h
  | p :: L, S, h =>
    mem_foldl_insert L (insertPattern S p) (mem_insertPattern_of_mem p h)

theorem mem_foldl_insert_of_mem {p : String} :
    ∀ (L : List String) (S : List String), p ∈ L →
      p ∈ L.foldl insertPattern S
  | [], _, h => absurd h (List.not_mem_nil p)
  | a :: L, S, h => by
    rcases List.mem_cons.mp h with rfl | h2
    · exact mem_foldl_insert L _ (mem_insertPattern_self S p)
    · exact mem_foldl_insert_of_mem L _ h2

theorem foldl_insert_of_all_mem :
    ∀ (L : List String) (S : List String), (∀ x ∈ L, x ∈ S) →
      L.foldl insertPattern S = S
  | [], _, _ => rfl
  | a :: L, S, h => by
    have ha : insertPattern S a = S := by
      unfold insertPattern
      rw [if_pos (h a (List.mem_cons_self a L))]
    rw [List.foldl_cons, ha,
      foldl_insert_of_all_mem L S (fun x hx => h x (List.mem_cons_of_mem a hx))]

/-- Loading the same ignore file into an already-loaded pattern set changes
nothing: the accumulated set is a set. -/
theorem load_gitignore_idem (S : List String) (ls : List String) :
    load_gitignore (load_gitignore S ls) ls = load_gitignore S ls := by
  unfold load_gitignore
  exact foldl_insert_of_all_mem _ _
    (fun x hx => mem_foldl_insert_of_mem _ _ hx)

/-- Re-running `load_gitignore` on the same root leaves the converter's
pattern state fixed. -/
theorem runPatterns_idem (pats : List String) (repo : Repo) :
    runPatterns (runPatterns pats repo) repo = runPatterns pats repo := by
  unfold runPatterns
  cases repo.gitignore with
  | none => rfl
  | some ls => exact load_gitignore_idem pats ls

/-! ### Facts feeding the claim theorems -/

/-- The preamble writes contribute no section headers: the headers of a run's
trace are the headers of its walk. -/
theorem headerPaths_runTrace (ctx : Ctx) (pats : List String)
    (repoStr : String) (root : Dir) :
    headerPaths (runTrace ctx pats repoStr root) =
      headerPaths (walkEvs ctx pats [] root) := rfl

/-- Unpacking a positive `is_text_file` verdict: the probe succeeded, the
size is under the ceiling and the first 1024 bytes hold no null byte. -/
theorem is_text_file_spec {ctx : Ctx} {f : File}
    (h : is_text_file ctx f = true) :
    f.probeError = false ∧ f.bytes.length ≤ ctx.max_file_size ∧
      (f.bytes.take 1024).contains 0 = false := by
  unfold is_text_file at h
  split_ifs at h with h1 h2 h3
  exact ⟨Bool.eq_false_iff.mpr h1, by omega, Bool.eq_false_iff.mpr h3⟩

/-- Unpacking the per-file filter: included means text-classified and not
ignored. -/
theorem includeFile_spec {ctx : Ctx} {pats : List String}
    {rel : List String} {f : File}
    (h : includeFile ctx pats rel f = true) :
    is_text_file ctx f = true ∧ is_ignored pats rel = false := by
  unfold includeFile at h
  simp only [Bool.and_eq_true, Bool.not_eq_true'] at h
  exact h

/-! ### Concrete fixture used by the witnesses -/

/-- A one-byte-per-character encoding for the concrete examples: bytes below
128 decode to the code point of the same number, anything else is
undecodable. -/
def asciiEnc : Encoding :=
  ⟨fun b _ => if b < 128 then some (Char.ofNat b, 0) else none⟩

/-- Context for the concrete examples: 100 KiB ceiling (the CLI default),
every file detected as `asciiEnc`. -/
def exCtx : Ctx := ⟨102400, fun _ => asciiEnc⟩

/-- ASCII byte lists are fully decodable under `asciiEnc`, to their mapped
code points. -/
theorem decOk_ascii :
    ∀ (bs : List Byte), (∀ b ∈ bs, b < 128) →
      DecOk asciiEnc bs (bs.map Char.ofNat) := by
  intro bs
  induction bs with
  | nil => intro _; exact DecOk.nil
  | cons b rest ih =>
    intro h
    have hstep : asciiEnc.step b rest = some (Char.ofNat b, 0) := by
      simp [asciiEnc, h b (List.mem_cons_self b rest)]
    have htail : DecOk asciiEnc (rest.drop 0) (rest.map Char.ofNat) :=
      ih (fun x hx => h x (List.mem_cons_of_mem b hx))
    exact DecOk.cons hstep htail

/-- Example file `a.txt` containing `hello`. -/
def exA : File := ⟨"a.txt", [104, 101, 108, 108, 111], false, false, .ok⟩

/-- Example binary file `b.bin`: a null byte among its first bytes. -/
def exB : File := ⟨"b.bin", [1, 0, 2], false, false, .ok⟩

/-- Example file `run.log`, matched by the ignore pattern of the fixture. -/
def exL : File := ⟨"run.log", [108], false, false, .ok⟩

/-- Example file `config` inside a `.git` directory. -/
def exG : File := ⟨"config", [120], false, false, .ok⟩

/-- Example file `c.py` inside the subdirectory `sub`. -/
def exC : File := ⟨"c.py", [99], false, false, .ok⟩

/-- Example tree: root holds `a.txt`, `b.bin`, `run.log`, a `.git` directory
holding `config`, and a subdirectory `sub` holding `c.py`. -/
def exTree : Dir :=
  .mk "repo" [exA, exB, exL]
    [.mk ".git" [exG] [], .mk "sub" [exC] []]

/-- Example repository: the tree above with a `.gitignore` whose effective
pattern set is `*.log`. -/
def exRepo : Repo := ⟨exTree, some [" *.log ", "# comment", ""]⟩

/-! ### The claims -/

/-- C1 (soundness of inclusion): every file whose section header appears in
the run's output trace exists in the tree at that relative path and was, when
read, classified as text — probe succeeded, byte size not exceeding the
ceiling, no null byte in the first 1024 bytes — and its relative path matched
no loaded ignore pattern.  Consequently a file exceeding the ceiling, holding
an early null byte, or matching a loaded pattern never contributes a
section. -/
theorem claim_c1_soundness (ctx : Ctx) (pats0 : List String) (repo : Repo)
    (repoStr : String) (r : List String)
    (h : r ∈ headerPaths
      (runTrace ctx (runPatterns pats0 repo) repoStr repo.root)) :
    ∃ f, FileAt repo.root r f ∧ is_text_file ctx f = true ∧
      f.probeError = false ∧ f.bytes.length ≤ ctx.max_file_size ∧
      (f.bytes.take 1024).contains 0 = false ∧
      is_ignored (runPatterns pats0 repo) r = false := by
  rw [headerPaths_runTrace] at h
  obtain ⟨tail, f, hr, hat, hinc⟩ :=
    mem_headerPaths_walkEvs ctx (runPatterns pats0 repo) [] repo.root r h
  rw [List.nil_append] at hr
  subst hr
  obtain ⟨htext, hign⟩ := includeFile_spec hinc
  obtain ⟨hp, hs, hn⟩ := is_text_file_spec htext
  exact ⟨f, hat, htext, hp, hs, hn, hign⟩

/-- Witness for C1: in the fixture, `a.txt` appears in the output trace, and
the theorem yields its section's justification. -/
theorem claim_c1_soundness_witness :
    ∃ f, FileAt exRepo.root ["a.txt"] f ∧ is_text_file exCtx f = true ∧
      f.probeError = false ∧ f.bytes.length ≤ exCtx.max_file_size ∧
      (f.bytes.take 1024).contains 0 = false ∧
      is_ignored (runPatterns [] exRepo) ["a.txt"] = false :=
  claim_c1_soundness exCtx [] exRepo "repo" ["a.txt"] (by decide)

/-- C2 (completeness, uniqueness and order): when every write succeeds and
the tree is well-formed, the section headers of the run's output trace are
exactly the relative paths of the reachable files that pass the
classification filter (under the ceiling, no early null byte, not ignored),
in filesystem traversal order, and no path occurs twice. -/
theorem claim_c2_complete_unique_ordered (ctx : Ctx) (pats0 : List String)
    (repo : Repo) (repoStr : String)
    (hok : allWritesOk repo.root = true)
    (hwf : wellFormed repo.root = true) :
    headerPaths (runTrace ctx (runPatterns pats0 repo) repoStr repo.root) =
      goodPaths ctx (runPatterns pats0 repo) [] repo.root ∧
    (headerPaths
      (runTrace ctx (runPatterns pats0 repo) repoStr repo.root)).Nodup := by
  rw [headerPaths_runTrace,
    headerPaths_walkEvs ctx (runPatterns pats0 repo) [] repo.root hok]
  exact ⟨rfl, goodPaths_nodup ctx (runPatterns pats0 repo) [] repo.root hwf⟩

/-- Witness for C2: the fixture's run emits exactly its two good files, once
each, in traversal order. -/
theorem claim_c2_complete_unique_ordered_witness :
    (allWritesOk exRepo.root = true ∧ wellFormed exRepo.root = true) ∧
    (headerPaths (runTrace exCtx (runPatterns [] exRepo) "repo" exRepo.root) =
      goodPaths exCtx (runPatterns [] exRepo) [] exRepo.root ∧
    (headerPaths
      (runTrace exCtx (runPatterns [] exRepo) "repo" exRepo.root)).Nodup) :=
  ⟨⟨by decide, by decide⟩,
    claim_c2_complete_unique_ordered exCtx [] exRepo "repo"
      (by decide) (by decide)⟩

/-- C3 (directory pruning): whatever the ignore-pattern set holds, no header
path written by a run descends through an excluded directory name, and the
walk of a tree equals the walk of the tree with every excluded directory
(and all its descendants) removed — pruned directories are never descended
into. -/
theorem claim_c3_pruning (ctx : Ctx) (pats : List String)
    (repoStr : String) (root : Dir) :
    (∀ r ∈ headerPaths (runTrace ctx pats repoStr root),
      ∀ c ∈ r.dropLast, c ∉ exclude_dirs) ∧
    walkEvs ctx pats [] (pruneDir root) = walkEvs ctx pats [] root := by
  constructor
  · intro r hr c hc
    rw [headerPaths_runTrace] at hr
    rcases walkEvs_comps ctx pats [] root r hr c hc with h2 | h2
    · exact absurd h2 (List.not_mem_nil c)
    · exact h2
  · exact walkEvs_pruneDir ctx pats [] root

/-- Witness for C3: in the fixture, the directory component of the emitted
path `sub/c.py` is not excluded, and pruning the fixture tree leaves its walk
unchanged (while `.git/config` indeed never appears). -/
theorem claim_c3_pruning_witness :
    ("sub" ∉ exclude_dirs) ∧
    walkEvs exCtx ["*.log"] [] (pruneDir exTree) =
      walkEvs exCtx ["*.log"] [] exTree :=
  ⟨(claim_c3_pruning exCtx ["*.log"] "repo" exTree).1
      ["sub", "c.py"] (by decide) "sub" (by decide),
    (claim_c3_pruning exCtx ["*.log"] "repo" exTree).2⟩

/-- C4 (round-trip): for a file whose bytes are fully decodable under the
detected (or default) encoding into the text `cs`, reading drops nothing and
returns exactly that text, and the section written for the file carries
exactly that text as its content. -/
theorem claim_c4_roundtrip (ctx : Ctx) (pats : List String)
    (rel : List String) (f : File) (cs : List Char)
    (hread : f.readError = false)
    (hdec : DecOk (detect_encoding ctx f) f.bytes cs)
    (hinc : includeFile ctx pats rel f = true)
    (hok : f.writeBehavior = PerFileWrite.ok) :
    read_source_file ctx f = String.mk cs ∧
    fileEvs ctx pats rel f =
      [Ev.fileHeader rel, Ev.dashLine, Ev.fileContent (String.mk cs)] := by
  have h1 : read_source_file ctx f = String.mk cs := by
    unfold read_source_file rawRead
    rw [hread]
    simp only [Bool.false_eq_true, if_false]
    exact congrArg String.mk (decodeIgnore_of_decOk _ hdec)
  refine ⟨h1, ?_⟩
  unfold fileEvs
  rw [if_pos hinc, hok, h1]

/-- Witness for C4: the fixture file `a.txt` holds the ASCII bytes of
`hello`; its section content is exactly `hello`. -/
theorem claim_c4_roundtrip_witness :
    read_source_file exCtx exA = String.mk ['h', 'e', 'l', 'l', 'o'] ∧
    fileEvs exCtx [] ["a.txt"] exA =
      [Ev.fileHeader ["a.txt"], Ev.dashLine,
        Ev.fileContent (String.mk ['h', 'e', 'l', 'l', 'o'])] :=
  claim_c4_roundtrip exCtx [] ["a.txt"] exA ['h', 'e', 'l', 'l', 'o']
    (by decide)
    (decOk_ascii [104, 101, 108, 108, 111] (by decide))
    (by decide) (by decide)

/-- C5, counterexample to "glob match of the full relative path": the loaded
pattern `*.log` ignores `sub/run.log` (the code's `PurePath.match` matches
from the right), although no pattern in the set glob-matches the full
relative path. -/
theorem claim_c5_counterexample :
    is_ignored ["*.log"] ["sub", "run.log"] = true ∧
    (["*.log"].any (fullGlobMatch ["sub", "run.log"])) = false := by
  decide

/-- C5 as amended: over pattern sets whose every loaded pattern parses to at
least one component (a pattern such as `.` instead makes `PurePath.match`
raise `ValueError`, which escapes the per-file filter and aborts the run via
the outer `except`), a file is ignored exactly when some loaded RELATIVE
pattern's components glob-match a suffix of the components of the file's path
relative to the root (right-anchored `PurePath.match` semantics) — not
necessarily the full relative path, and never via an absolute (leading `/`)
pattern, which fails the root check against a relative path. -/
theorem claim_c5_amended (pats : List String) (rel : List String)
    (hsafe : ∀ p ∈ pats, matchRaises p = false) :
    is_ignored pats rel = true ↔
      ∃ p ∈ pats, patternIsAbs p = false ∧
        ∃ t : List String, List.IsSuffix t rel ∧
          t.length = (patternParts p).length ∧
          ((t.zip (patternParts p)).all
            (fun ct => compMatch ct.2.toList ct.1.toList)) = true := by
  unfold is_ignored
  rw [List.any_eq_true]
  constructor
  · intro ⟨p, hp, hm⟩
    obtain ⟨_, habs, hrest⟩ := (pathMatch_iff rel p).mp hm
    exact ⟨p, hp, habs, hrest⟩
  · intro ⟨p, hp, habs, hrest⟩
    have hne : patternParts p ≠ [] := by
      have h1 := hsafe p hp
      unfold matchRaises at h1
      exact of_decide_eq_false h1
    exact ⟨p, hp, (pathMatch_iff rel p).mpr ⟨hne, habs, hrest⟩⟩

/-- Witness for the amended C5: the non-raising pattern set holding only
`*.log` ignores `sub/run.log` via the suffix `run.log`. -/
theorem claim_c5_amended_witness :
    is_ignored ["*.log"] ["sub", "run.log"] = true :=
  (claim_c5_amended ["*.log"] ["sub", "run.log"] (by decide)).mpr
    ⟨"*.log", by decide, by decide, ["run.log"], ⟨["sub"], rfl⟩, by decide,
      by decide⟩

/-- C6 (idempotence/determinism): a second `convert_repository` run on the
same unchanged repository — even on the same converter instance, whose
pattern field has accumulated the first run's patterns — produces a
byte-identical output artifact.  The stable-traversal-order hypothesis is the
fact that both runs observe the same `Repo` value. -/
theorem claim_c6_idempotent (ctx : Ctx) (pats : List String) (repo : Repo)
    (repoStr : String) (outStr : String) :
    (convert_repository ctx
        (convert_repository ctx pats repo repoStr outStr false).patterns
        repo repoStr outStr false).artifact =
      (convert_repository ctx pats repo repoStr outStr false).artifact := by
  unfold convert_repository
  simp only [if_false, Bool.false_eq_true]
  rw [runPatterns_idem]

/-- C7 (fatal output-file failure): when opening the output file fails, the
run logs an error, prints no success summary (no processed-file count, no
output path) and leaves no artifact behind the handle. -/
theorem claim_c7_fatal_open (ctx : Ctx) (pats : List String) (repo : Repo)
    (repoStr : String) (outStr : String) :
    (convert_repository ctx pats repo repoStr outStr true).summary = [] ∧
    (convert_repository ctx pats repo repoStr outStr true).errorLogged =
      true ∧
    (convert_repository ctx pats repo repoStr outStr true).artifact =
      none := by
  unfold convert_repository
  exact ⟨rfl, rfl, rfl⟩

/-- C8 (soft read errors): a read error on an included file is swallowed —
`read_source_file` returns the empty string instead of propagating — and the
file's section is still written, with empty content, and still counted in the
processed-file total. -/
theorem claim_c8_soft_read_error (ctx : Ctx) (pats : List String)
    (rel : List String) (f : File)
    (hread : f.readError = true)
    (hinc : includeFile ctx pats rel f = true)
    (hok : f.writeBehavior = PerFileWrite.ok) :
    read_source_file ctx f = "" ∧
    fileEvs ctx pats rel f =
      [Ev.fileHeader rel, Ev.dashLine, Ev.fileContent ""] ∧
    fileCount ctx pats rel f = 1 := by
  have h1 : read_source_file ctx f = "" := by
    unfold read_source_file rawRead
    rw [hread]
    rfl
  refine ⟨h1, ?_, ?_⟩
  · unfold fileEvs
    rw [if_pos hinc, hok, h1]
  · unfold fileCount
    rw [if_pos ⟨hinc, hok⟩]

/-- Witness for C8: a text file whose read raises still yields a counted,
empty section. -/
theorem claim_c8_soft_read_error_witness :
    read_source_file exCtx ⟨"bad.txt", [104], false, true, .ok⟩ = "" ∧
    fileEvs exCtx [] ["bad.txt"] ⟨"bad.txt", [104], false, true, .ok⟩ =
      [Ev.fileHeader ["bad.txt"], Ev.dashLine, Ev.fileContent ""] ∧
    fileCount exCtx [] ["bad.txt"] ⟨"bad.txt", [104], false, true, .ok⟩ = 1 :=
  claim_c8_soft_read_error exCtx [] ["bad.txt"]
    ⟨"bad.txt", [104], false, true, .ok⟩ (by decide) (by decide) (by decide)

/-- C9 (remote acquisition): the temporary clone directory never survives the
run, successful or not; a clone failure propagates as the run's error with no
conversion attempted; a successful clone hands the populated temporary
directory to `convert_repository` as the root. -/
theorem claim_c9_remote (ctx : Ctx) (pats : List String)
    (cloneResult : Option Repo) (outStr : String) (openFail : Bool) :
    (clone_and_convert ctx pats cloneResult outStr openFail).2 = false ∧
    (clone_and_convert ctx pats none outStr openFail).1 =
      Except.error CloneErr.cloneFailed ∧
    (∀ repo, (clone_and_convert ctx pats (some repo) outStr openFail).1 =
      Except.ok (convert_repository ctx pats repo "tmpdir" outStr
        openFail)) :=
  ⟨rfl, rfl, fun _ => rfl⟩

/-- C10 (count/section agreement): when no per-file write error occurs, the
processed-file count reported by the success summary equals the number of
section headers written to the output trace. -/
theorem claim_c10_count (ctx : Ctx) (pats0 : List String) (repo : Repo)
    (repoStr : String) (hok : allWritesOk repo.root = true) :
    walkCount ctx (runPatterns pats0 repo) [] repo.root =
      (headerPaths
        (runTrace ctx (runPatterns pats0 repo) repoStr repo.root)).length := by
  rw [headerPaths_runTrace]
  exact walkCount_eq_headers ctx (runPatterns pats0 repo) [] repo.root hok

/-- Witness for C10: the fixture's run counts two processed files and writes
two headers. -/
theorem claim_c10_count_witness :
    walkCount exCtx (runPatterns [] exRepo) [] exRepo.root =
      (headerPaths
        (runTrace exCtx (runPatterns [] exRepo) "repo" exRepo.root)).length :=
  claim_c10_count exCtx [] exRepo "repo" (by decide)

end Totxt
